import Mathlib

/-!
Shallow embedding of the walk-in queue subsystem of the barbershop POS
backend (`app/routers/queue.py`), and proofs of the specified properties.

The SQL store is modelled as a `QueueState`: a list of `WalkInQueue` rows
(in insertion order, as produced by the autoincrement primary key), a list
of `Barber` rows, and the next autoincrement id.  `datetime.utcnow()` is
modelled as an explicit `now : Nat` argument to the operations that read
the clock.  Each HTTP handler that can raise `HTTPException(404)` is
modelled as a function into `Except ApiError _`.
-/

namespace BarberQueue

/-- A row of the `walkin_queue` table (`app/models.py`, class `WalkInQueue`). -/
structure WalkInQueue where
  id : Nat
  customer_name : String
  customer_phone : Option String := none
  customer_id : Option Nat := none
  requested_barber_id : Option Nat := none
  service_notes : Option String := none
  position : Nat
  status : String := "waiting"
  estimated_wait : Option Nat := none
  check_in_time : Nat
  called_time : Option Nat := none
  completed_time : Option Nat := none
  deriving Repr, DecidableEq

/-- The fields of a `Barber` row that the queue router reads. -/
structure Barber where
  id : Nat
  name : String
  is_available : Bool
  deriving Repr, DecidableEq

/-- The store, as seen by the queue router. -/
structure QueueState where
  entries : List WalkInQueue
  barbers : List Barber
  next_id : Nat
  deriving Repr, DecidableEq

/-- Request body of `POST /queue/` (`QueueEntryCreate`). -/
structure QueueEntryCreate where
  customer_name : String
  customer_phone : Option String := none
  customer_id : Option Nat := none
  requested_barber_id : Option Nat := none
  service_notes : Option String := none
  deriving Repr, DecidableEq

/-- Response of `POST /queue/` (the fields the spec talks about). -/
structure AddResponse where
  id : Nat
  position : Nat
  estimated_wait : Nat
  deriving Repr, DecidableEq

/-- `HTTPException(status_code=404)` as raised by the queue handlers. -/
inductive ApiError where
  | notFound
  deriving Repr, DecidableEq

/-- An entry is active when its status is `waiting` or `called`
(the filter `WalkInQueue.status.in_(["waiting", "called"])`). -/
def isActive (e : WalkInQueue) : Bool :=
  e.status = "waiting" || e.status = "called"

/-- `db.query(func.max(WalkInQueue.position)).filter(status in waiting/called).scalar() or 0`. -/
def maxActivePos (s : QueueState) : Nat :=
  ((s.entries.filter isActive).map (·.position)).foldr max 0

/-- `db.query(WalkInQueue).filter(WalkInQueue.status == "waiting").count()`. -/
def waitingCount (s : QueueState) : Nat :=
  (s.entries.filter (·.status = "waiting")).length

/-- `db.query(WalkInQueue).filter(WalkInQueue.status == "in_service").count()`. -/
def inServiceCount (s : QueueState) : Nat :=
  (s.entries.filter (·.status = "in_service")).length

/-- `db.query(Barber).filter(Barber.is_available == True).count()`. -/
def activeBarberCount (s : QueueState) : Nat :=
  (s.barbers.filter (·.is_available)).length

/-- `db.query(WalkInQueue).filter(WalkInQueue.id == entry_id).first()`. -/
def findEntry (s : QueueState) (entry_id : Nat) : Option WalkInQueue :=
  s.entries.find? (·.id = entry_id)

/-- `db.query(Barber).filter(Barber.id == barber_id).first()`. -/
def findBarber (s : QueueState) (barber_id : Nat) : Option Barber :=
  s.barbers.find? (·.id = barber_id)

/-- `POST /queue/` (`add_to_queue`): position is one past the maximum
position among waiting/called entries, and the stored estimate is
`waiting_count * 25` (line 86 of `queue.py`). -/
def add_to_queue (req : QueueEntryCreate) (now : Nat) (s : QueueState) :
    QueueState × AddResponse :=
  let max_pos := maxActivePos s
  let waiting_count := waitingCount s
  let estimated_wait := waiting_count * 25
  let queue_entry : WalkInQueue :=
    { id := s.next_id
      customer_name := req.customer_name
      customer_phone := req.customer_phone
      customer_id := req.customer_id
      requested_barber_id := req.requested_barber_id
      service_notes := req.service_notes
      position := max_pos + 1
      status := "waiting"
      estimated_wait := some estimated_wait
      check_in_time := now }
  ({ s with entries := s.entries ++ [queue_entry], next_id := s.next_id + 1 },
   { id := s.next_id, position := max_pos + 1, estimated_wait := estimated_wait })

/-- `POST /queue/{entry_id}/call` (`call_customer`). -/
def call_customer (entry_id : Nat) (now : Nat) (s : QueueState) :
    Except ApiError QueueState :=
  match findEntry s entry_id with
  | none => .error .notFound
  | some _ =>
      .ok { s with entries := s.entries.map fun e =>
              if e.id = entry_id then
                { e with status := "called", called_time := some now }
              else e }

/-- `POST /queue/{entry_id}/start` (`start_service`). -/
def start_service (entry_id barber_id : Nat) (s : QueueState) :
    Except ApiError QueueState :=
  match findEntry s entry_id with
  | none => .error .notFound
  | some _ =>
      match findBarber s barber_id with
      | none => .error .notFound
      | some _ =>
          .ok { s with entries := s.entries.map fun e =>
                  if e.id = entry_id then { e with status := "in_service" } else e }

/-- `POST /queue/{entry_id}/complete` (`complete_queue_entry`). -/
def complete_queue_entry (entry_id : Nat) (now : Nat) (s : QueueState) :
    Except ApiError QueueState :=
  match findEntry s entry_id with
  | none => .error .notFound
  | some _ =>
      .ok { s with entries := s.entries.map fun e =>
              if e.id = entry_id then
                { e with status := "completed", completed_time := some now }
              else e }

/-- `POST /queue/{entry_id}/remove` (`remove_from_queue`): mark the entry
`left`, then decrement the position of every entry with status `waiting`
and position strictly greater than the removed entry's position. -/
def remove_from_queue (entry_id : Nat) (s : QueueState) :
    Except ApiError QueueState :=
  match findEntry s entry_id with
  | none => .error .notFound
  | some entry =>
      let entries1 := s.entries.map fun e =>
        if e.id = entry_id then { e with status := "left" } else e
      let entries2 := entries1.map fun e =>
        if e.status = "waiting" && entry.position < e.position then
          { e with position := e.position - 1 }
        else e
      .ok { s with entries := entries2 }

/-- `GET /queue/stats`, field `estimated_wait_new`
(`(waiting * 25) // max(active_barbers, 1)`). -/
def stats_estimated_wait_new (s : QueueState) : Nat :=
  waitingCount s * 25 / max (activeBarberCount s) 1

/-- The Simple-mode estimator shared by `GET /queue/stats`,
`GET /queue/{entry_id}/status` and `GET /queue/lookup/{phone}`:
`(people_ahead * 25) // max(active_barbers, 1)`. -/
def simple_estimate (people_ahead active_barbers : Nat) : Nat :=
  people_ahead * 25 / max active_barbers 1

/-- `GET /queue/{entry_id}/status` (`get_queue_position`), restricted to the
fields the spec reasons about: people ahead and the fresh estimate. -/
def get_queue_position (entry_id : Nat) (s : QueueState) :
    Except ApiError (Nat × Nat) :=
  match findEntry s entry_id with
  | none => .error .notFound
  | some entry =>
      let ahead := (s.entries.filter fun e =>
        e.status = "waiting" && e.position < entry.position).length
      .ok (ahead, simple_estimate ahead (activeBarberCount s))

/-- Average service time over the sampled `(completed_at - started_at)`
durations (in minutes) of the trailing-7-day completed orders; `25` when
there are no samples (`avg_service_time` in `get_detailed_wait_times`). -/
def avg_service_time (samples : List ℚ) : ℚ :=
  if samples = [] then 25 else samples.sum / samples.length

/-- The detailed-mode wait estimate of `GET /queue/wait-times`:
`(in_service * avg * 0.5) / active + (waiting * avg) / active` when there
is at least one active barber, else `waiting * avg`. -/
def detailed_estimate (waiting in_service active_barbers : Nat) (avg : ℚ) : ℚ :=
  if 0 < active_barbers then
    (in_service * avg * (1 / 2)) / active_barbers + (waiting * avg) / active_barbers
  else
    waiting * avg

/-- Result of `get_wait_recommendation`. -/
structure Recommendation where
  level : String
  message : String
  color : String
  deriving Repr, DecidableEq

/-- `get_wait_recommendation` (`queue.py` lines 291-300). -/
def get_wait_recommendation (wait_minutes : ℚ) : Recommendation :=
  if wait_minutes ≤ 10 then
    { level := "low", message := "Almost no wait - great time to come in!", color := "green" }
  else if wait_minutes ≤ 25 then
    { level := "moderate", message := "Short wait expected", color := "yellow" }
  else if wait_minutes ≤ 45 then
    { level := "busy", message := "Moderate wait - consider booking appointment", color := "orange" }
  else
    { level := "very_busy", message := "Long wait - we recommend booking an appointment", color := "red" }

/-- The operations that mutate the queue, for reasoning about reachable
states. -/
inductive QueueOp where
  | join (req : QueueEntryCreate) (now : Nat)
  | call (entry_id now : Nat)
  | start (entry_id barber_id : Nat)
  | complete (entry_id now : Nat)
  | remove (entry_id : Nat)
  deriving Repr, DecidableEq

/-- One request against the store.  A handler that raises 404 mutates
nothing, so a failing operation leaves the state unchanged. -/
def step (s : QueueState) (op : QueueOp) : QueueState :=
  match op with
  | .join req now => (add_to_queue req now s).1
  | .call id now => ((call_customer id now s).toOption).getD s
  | .start id bid => ((start_service id bid s).toOption).getD s
  | .complete id now => ((complete_queue_entry id now s).toOption).getD s
  | .remove id => ((remove_from_queue id s).toOption).getD s

/-- Run a sequence of operations. -/
def run (ops : List QueueOp) (s : QueueState) : QueueState :=
  ops.foldl step s

/-- The positions of the active (waiting/called) entries, in store order. -/
def activePosList (s : QueueState) : List Nat :=
  ((s.entries.filter isActive).map (·.position))

/-- Number of active (waiting/called) entries. -/
def activeCount (s : QueueState) : Nat :=
  (s.entries.filter isActive).length

/-! ### Concrete states used in scenarios and counterexamples -/

/-- A sample join request. -/
def sampleReq : QueueEntryCreate := { customer_name := "Dana" }

/-- Further sample join requests. -/
def sampleReq2 : QueueEntryCreate := { customer_name := "Eve" }

def sampleReq3 : QueueEntryCreate := { customer_name := "Fay" }

def sampleReq4 : QueueEntryCreate := { customer_name := "Gil" }

/-- Two available barbers. -/
def twoBarbers : List Barber := [⟨1, "Bob", true⟩, ⟨2, "Ali", true⟩]

/-- A store with no rows at all. -/
def emptyState : QueueState := { entries := [], barbers := [], next_id := 1 }

/-- Three `waiting` entries at positions 1, 2, 3 and two available barbers:
the state of the spec's join scenario. -/
def scenarioState : QueueState :=
  run [.join sampleReq 0, .join sampleReq2 0, .join sampleReq3 0]
    { entries := [], barbers := twoBarbers, next_id := 1 }

/-- Four `waiting` entries at positions 1, 2, 3, 4: the state of the spec's
removal scenario. -/
def scenario4State : QueueState := step scenarioState (.join sampleReq4 0)

/-! ### C6: wait-level recommendation thresholds -/

/-- C6: the wait-level recommendation is "low" iff the estimate is ≤ 10,
"moderate" iff it is in (10, 25], "busy" iff it is in (25, 45], and
"very_busy" iff it is > 45; an estimate of exactly 25 maps to "moderate"
and 26 maps to "busy". -/
theorem wait_recommendation_thresholds (w : ℚ) :
    ((get_wait_recommendation w).level = "low" ↔ w ≤ 10) ∧
    ((get_wait_recommendation w).level = "moderate" ↔ 10 < w ∧ w ≤ 25) ∧
    ((get_wait_recommendation w).level = "busy" ↔ 25 < w ∧ w ≤ 45) ∧
    ((get_wait_recommendation w).level = "very_busy" ↔ 45 < w) ∧
    (get_wait_recommendation 25).level = "moderate" ∧
    (get_wait_recommendation 26).level = "busy" := by
  refine ⟨?_, ?_, ?_, ?_, by norm_num [get_wait_recommendation], by norm_num [get_wait_recommendation]⟩ <;>
    · unfold get_wait_recommendation
      split_ifs <;> simp_all <;> intros <;> linarith

/-! ### C7: Simple-mode estimate division safety and floor -/

/-- C7: the Simple-mode estimate with `active_barber_count = 0` involves no
division by zero (the denominator is clamped to at least 1) and equals
`people_ahead * 25`; the estimate is a natural number, hence always ≥ 0,
and it is 0 when nobody is ahead.  The `stats` endpoint's
`estimated_wait_new` is exactly this estimator applied to the waiting
count and the available-barber count. -/
theorem simple_estimate_division_safety (a b : Nat) (s : QueueState) :
    simple_estimate a 0 = a * 25 ∧
    1 ≤ max b 1 ∧
    0 ≤ simple_estimate a b ∧
    simple_estimate 0 b = 0 ∧
    stats_estimated_wait_new s = simple_estimate (waitingCount s) (activeBarberCount s) := by
  refine ⟨by simp [simple_estimate], le_max_right b 1, Nat.zero_le _, by simp [simple_estimate], rfl⟩

/-! ### C5: detailed-mode estimate -/

/-- C5: with at least one active barber the detailed-mode estimate is
`(in_service * avg * 0.5) / barbers + (waiting * avg) / barbers`, and with
no active barber it is `waiting * avg`; the historical average falls back
to 25 when there are no samples; the spec's scenario
(waiting 5, in-service 2, 3 barbers, avg 30) totals 10 + 50 = 60. -/
theorem detailed_estimate_spec (w i b : Nat) (avg : ℚ) :
    (0 < b → detailed_estimate w i b avg = (i * avg * (1 / 2)) / b + (w * avg) / b) ∧
    (b = 0 → detailed_estimate w i b avg = w * avg) ∧
    avg_service_time [] = 25 ∧
    detailed_estimate 5 2 3 30 = (2 * 30 * (1 / 2 : ℚ)) / 3 + (5 * 30) / 3 ∧
    detailed_estimate 5 2 3 30 = 60 := by
  refine ⟨fun hb => ?_, fun hb => ?_, rfl, by norm_num [detailed_estimate], by norm_num [detailed_estimate]⟩
  · simp [detailed_estimate, hb]
  · simp [detailed_estimate, hb]

/-- Witness for C5 at the spec's scenario input. -/
theorem detailed_estimate_spec_witness :
    detailed_estimate 5 2 3 30 = ((2 : Nat) * (30 : ℚ) * (1 / 2)) / (3 : Nat) + ((5 : Nat) * (30 : ℚ)) / (3 : Nat) :=
  (detailed_estimate_spec 5 2 3 30).1 (by norm_num)

/-! ### C1: position and stored estimate at join time

The claim asserts that the stored estimate divides by the available-barber
count (Simple mode).  The handler stores `waiting_count * 25` without any
division, so on the spec's own scenario (3 waiting, 2 barbers) the stored
estimate is 75, not `floor(3*25/2) = 37`. -/

/-- C1, counterexample: joining `scenarioState` (3 waiting entries,
2 available barbers) yields position 4 but stored estimate 75, not the
claimed `floor(3 * 25 / max(2, 1)) = 37`. -/
theorem add_to_queue_simple_mode_cex :
    (add_to_queue sampleReq4 0 scenarioState).2.position = 4 ∧
    (add_to_queue sampleReq4 0 scenarioState).2.estimated_wait = 75 ∧
    waitingCount scenarioState = 3 ∧
    activeBarberCount scenarioState = 2 ∧
    (add_to_queue sampleReq4 0 scenarioState).2.estimated_wait ≠
      waitingCount scenarioState * 25 / max (activeBarberCount scenarioState) 1 := by
  decide

/-- C1, amended: `add_to_queue` assigns
`position = max position among waiting/called entries (0 if none) + 1` and
stores `estimated_wait = (waiting count before insertion) * 25`, with no
division by the barber count; on the scenario state the response is
position 4, estimate 75. -/
theorem add_to_queue_position_and_estimate (req : QueueEntryCreate) (now : Nat) (s : QueueState) :
    (add_to_queue req now s).2.position = maxActivePos s + 1 ∧
    (add_to_queue req now s).2.estimated_wait = waitingCount s * 25 ∧
    (add_to_queue req now s).1.entries = s.entries ++
      [{ id := s.next_id
         customer_name := req.customer_name
         customer_phone := req.customer_phone
         customer_id := req.customer_id
         requested_barber_id := req.requested_barber_id
         service_notes := req.service_notes
         position := maxActivePos s + 1
         status := "waiting"
         estimated_wait := some (waitingCount s * 25)
         check_in_time := now }] ∧
    (add_to_queue sampleReq4 0 scenarioState).2 = ⟨4, 4, 75⟩ :=
  ⟨rfl, rfl, rfl, by decide⟩

/-! ### C3: `complete` performs no renumbering -/

/-- The renumbering behaviour that the claim attributes to `complete`:
every active entry with a position greater than the affected entry's is
decremented by 1. -/
def decrementsGreater (s s' : QueueState) (p : Nat) : Prop :=
  ∀ e ∈ s.entries, isActive e = true → p < e.position →
    ∃ e' ∈ s'.entries, e'.id = e.id ∧ e'.position = e.position - 1

/-- C3 as stated: completing any entry takes it out of the active statuses
and decrements the position of every remaining active entry beyond it. -/
def claimC3 : Prop :=
  ∀ (s : QueueState) (entry_id now : Nat) (entry : WalkInQueue) (s' : QueueState),
    findEntry s entry_id = some entry →
    complete_queue_entry entry_id now s = .ok s' →
    (∀ e' ∈ s'.entries, e'.id = entry_id → isActive e' = false) ∧
    decrementsGreater s s' entry.position

/-- C3, counterexample: completing entry 1 of `scenarioState` leaves the
entry at position 2 at position 2 (nothing is renumbered), refuting the
claimed decrement. -/
theorem complete_queue_entry_cex : ¬ claimC3 := by
  intro h
  have h2 := (h scenarioState 1 7 ⟨1, "Dana", none, none, none, none, 1, "waiting",
      some 0, 0, none, none⟩ (step scenarioState (.complete 1 7)) (by decide) rfl).2
  have h3 := h2 ⟨2, "Eve", none, none, none, none, 2, "waiting", some 25, 0, none, none⟩
      (by decide) (by decide) (by decide)
  revert h3
  decide

/-- C3, amended: `complete_queue_entry` only sets the entry's status to
`completed` and stamps `completed_time`; it renumbers nothing — every
entry's position (including the completed one's) is exactly as before. -/
theorem complete_queue_entry_no_renumber (entry_id now : Nat) (s : QueueState)
    (entry : WalkInQueue) (h : findEntry s entry_id = some entry) :
    complete_queue_entry entry_id now s =
      .ok { s with entries := s.entries.map fun e =>
              if e.id = entry_id then
                { e with status := "completed", completed_time := some now }
              else e } ∧
    ∀ s', complete_queue_entry entry_id now s = .ok s' →
      s'.entries.map (·.position) = s.entries.map (·.position) := by
  constructor
  · unfold complete_queue_entry
    rw [h]
  · intro s' hs'
    unfold complete_queue_entry at hs'
    rw [h] at hs'
    cases hs'
    simp only [List.map_map]
    refine List.map_congr_left fun e _ => ?_
    by_cases he : e.id = entry_id <;> simp [he]

/-- Witness for C3's amended theorem at entry 1 of the scenario state. -/
theorem complete_queue_entry_no_renumber_witness :
    (step scenarioState (.complete 1 7)).entries.map (·.position) =
      scenarioState.entries.map (·.position) :=
  (complete_queue_entry_no_renumber 1 7 scenarioState
      ⟨1, "Dana", none, none, none, none, 1, "waiting", some 0, 0, none, none⟩
      (by decide)).2
    (step scenarioState (.complete 1 7)) rfl

/-! ### C4: frame effect of `remove` -/

/-- C4: `remove` sets the target entry's status to `left` and decrements
exactly the `waiting` entries with strictly greater position; a `called`
entry with greater position is untouched, and no other field of any other
entry changes (each output entry is a pointwise function of the input
entry).  Removing the entry with the highest waiting position changes no
other entry, and the spec's `[1,2,3,4]` scenario leaves `[1,2,3]` in the
original relative order. -/
theorem remove_from_queue_frame (entry_id : Nat) (s : QueueState) (entry : WalkInQueue)
    (h : findEntry s entry_id = some entry) :
    (∀ s', remove_from_queue entry_id s = .ok s' →
       s'.entries.length = s.entries.length ∧
       s'.entries = s.entries.map fun e =>
         if e.id = entry_id then { e with status := "left" }
         else if e.status = "waiting" && entry.position < e.position then
           { e with position := e.position - 1 }
         else e) ∧
    (∀ s', remove_from_queue entry_id s = .ok s' →
       ∀ e ∈ s.entries, e.id ≠ entry_id → e.status = "called" → e ∈ s'.entries) ∧
    ((∀ e ∈ s.entries, e.status = "waiting" → e.position ≤ entry.position) →
       ∀ s', remove_from_queue entry_id s = .ok s' →
         s'.entries = s.entries.map fun e =>
           if e.id = entry_id then { e with status := "left" } else e) ∧
    (run [.remove 2] scenario4State).entries.map (fun e => (e.id, e.position, e.status)) =
      [(1, 1, "waiting"), (2, 2, "left"), (3, 2, "waiting"), (4, 3, "waiting")] ∧
    activePosList (run [.remove 2] scenario4State) = [1, 2, 3] ∧
    ((run [.remove 2] scenario4State).entries.filter isActive).map (·.id) = [1, 3, 4] := by
  have hmain : ∀ s', remove_from_queue entry_id s = .ok s' →
      s'.entries = s.entries.map fun e =>
        if e.id = entry_id then { e with status := "left" }
        else if e.status = "waiting" && entry.position < e.position then
          { e with position := e.position - 1 }
        else e := by
    intro s' hs'
    unfold remove_from_queue at hs'
    rw [h] at hs'
    cases hs'
    simp only [List.map_map]
    refine List.map_congr_left fun e _ => ?_
    by_cases he : e.id = entry_id <;> simp [he, Function.comp]
  refine ⟨fun s' hs' => ⟨by rw [hmain s' hs']; exact List.length_map .., hmain s' hs'⟩,
    ?_, ?_, by decide, by decide, by decide⟩
  · intro s' hs' e he hid hcalled
    rw [hmain s' hs']
    refine List.mem_map.mpr ⟨e, he, ?_⟩
    simp [hid, hcalled]
  · intro hle s' hs'
    rw [hmain s' hs']
    refine List.map_congr_left fun e he => ?_
    by_cases hid : e.id = entry_id
    · simp [hid]
    · by_cases hw : e.status = "waiting"
      · simp [hid, hw, Nat.not_lt.mpr (hle e he hw)]
      · simp [hid, hw]

/-- Witness for C4 at the spec's four-entry scenario, removing the entry
at position 2. -/
theorem remove_from_queue_frame_witness :
    (step scenario4State (.remove 2)).entries.length = scenario4State.entries.length :=
  ((remove_from_queue_frame 2 scenario4State
      ⟨2, "Eve", none, none, none, none, 2, "waiting", some 25, 0, none, none⟩
      (by decide)).1 (step scenario4State (.remove 2)) rfl).1

/-! ### C9: NotFound failures leave the state unchanged -/

/-- C9: `call`, `start_service`, `complete` and `remove` on an absent
entry id all fail with NotFound, as does `start_service` on a present
entry with an absent barber id; in every such case the state is exactly
the one before the request. -/
theorem notfound_failures_atomic (s : QueueState) (entry_id barber_id now : Nat) :
    (findEntry s entry_id = none →
       call_customer entry_id now s = .error .notFound ∧
       start_service entry_id barber_id s = .error .notFound ∧
       complete_queue_entry entry_id now s = .error .notFound ∧
       remove_from_queue entry_id s = .error .notFound ∧
       step s (.call entry_id now) = s ∧
       step s (.start entry_id barber_id) = s ∧
       step s (.complete entry_id now) = s ∧
       step s (.remove entry_id) = s) ∧
    (findEntry s entry_id ≠ none → findBarber s barber_id = none →
       start_service entry_id barber_id s = .error .notFound ∧
       step s (.start entry_id barber_id) = s) := by
  constructor
  · intro h
    refine ⟨?_, ?_, ?_, ?_, ?_, ?_, ?_, ?_⟩ <;>
      simp [call_customer, start_service, complete_queue_entry, remove_from_queue,
        step, Except.toOption, h]
  · intro hne hb
    cases hfe : findEntry s entry_id with
    | none => exact absurd hfe hne
    | some e =>
        constructor <;>
          simp [start_service, step, Except.toOption, hfe, hb]

/-- Witness for C9: a missing entry id on the empty store, and a missing
barber id on a store holding entry 1 and no barbers. -/
theorem notfound_failures_atomic_witness :
    call_customer 1 0 emptyState = .error .notFound ∧
    start_service 1 1 { entries := [⟨1, "Dana", none, none, none, none, 1, "waiting",
        some 0, 0, none, none⟩], barbers := [], next_id := 2 } = .error .notFound :=
  ⟨((notfound_failures_atomic emptyState 1 1 0).1 rfl).1,
   ((notfound_failures_atomic { entries := [⟨1, "Dana", none, none, none, none, 1,
        "waiting", some 0, 0, none, none⟩], barbers := [], next_id := 2 } 1 1 0).2
      (by decide) rfl).1⟩

/-! ### C10: `remove` has no precondition on status, and is not idempotent -/

/-- C10: `remove` succeeds for an entry in any status — including the
terminal `left` — and performs the same mark-left-and-renumber update
each time; removing entry 1 of the three-waiting scenario twice
decrements the surviving positions twice, leaving the duplicate position
list `[1, 1]` instead of `[1, 2]`. -/
theorem remove_not_idempotent (entry_id : Nat) (s : QueueState) (entry : WalkInQueue)
    (h : findEntry s entry_id = some entry) :
    remove_from_queue entry_id s =
      .ok { s with entries := (s.entries.map fun e =>
              if e.id = entry_id then { e with status := "left" } else e).map fun e =>
              if e.status = "waiting" && entry.position < e.position then
                { e with position := e.position - 1 }
              else e } ∧
    (findEntry (step scenarioState (.remove 1)) 1).map (·.status) = some "left" ∧
    activePosList (step scenarioState (.remove 1)) = [1, 2] ∧
    activePosList (run [.remove 1, .remove 1] scenarioState) = [1, 1] ∧
    run [.remove 1, .remove 1] scenarioState ≠ run [.remove 1] scenarioState := by
  refine ⟨?_, by decide, by decide, by decide, by decide⟩
  unfold remove_from_queue
  rw [h]

/-- Witness for C10: the second `remove` of entry 1 — whose status is by
then the terminal `left` — still succeeds and renumbers again. -/
theorem remove_not_idempotent_witness :
    remove_from_queue 1 (step scenarioState (.remove 1)) =
      .ok (run [.remove 1, .remove 1] scenarioState) := by
  have h := (remove_not_idempotent 1 (step scenarioState (.remove 1))
      ⟨1, "Dana", none, none, none, none, 1, "left", some 0, 0, none, none⟩ (by decide)).1
  exact h.trans (by rfl)

/-! ### C8: timestamp flags along the lifecycle

The claim asserts `called_time` is set iff the status has reached
`called` or later, and `completed_time` iff the status is `completed`.
The handlers validate no preconditions, so `start_service` straight from
`waiting` yields an `in_service` entry with no `called_time`, and
`remove` after `complete` yields a `left` entry with `completed_time`
still set.  What does hold of every reachable entry: a `called` status
comes with `called_time`, a `completed` status comes with
`completed_time`, and a set timestamp means the entry is no longer
`waiting`. -/

/-- The status has reached `called` or later in the lifecycle diagram. -/
def reachedCalled (st : String) : Bool :=
  st = "called" || st = "in_service" || st = "completed"

/-- C8 as stated, as a predicate on a state. -/
def claimC8 (s : QueueState) : Prop :=
  ∀ e ∈ s.entries,
    (e.called_time.isSome = true ↔ reachedCalled e.status = true) ∧
    (e.completed_time.isSome = true ↔ e.status = "completed")

/-- The timestamp facts that actually hold of every reachable entry. -/
def tsOK (e : WalkInQueue) : Prop :=
  (e.status = "called" → e.called_time.isSome = true) ∧
  (e.called_time.isSome = true → e.status ≠ "waiting") ∧
  (e.status = "completed" → e.completed_time.isSome = true) ∧
  (e.completed_time.isSome = true → e.status ≠ "waiting")

/-- Every entry of the state satisfies `tsOK`. -/
def timesInv (s : QueueState) : Prop :=
  ∀ e ∈ s.entries, tsOK e

/-- A store with one available barber and no entries. -/
def oneBarberState : QueueState :=
  { entries := [], barbers := [⟨1, "Bob", true⟩], next_id := 1 }

/-- C8, counterexample: joining and then starting service directly (no
`call` in between — the handlers enforce no precondition) reaches a state
whose only entry is `in_service` with `called_time` unset, refuting the
claimed iff. -/
theorem timestamp_iff_cex :
    (run [.join sampleReq 0, .start 1 1] oneBarberState).entries.map
        (fun e => (e.status, e.called_time.isSome, e.completed_time.isSome)) =
      [("in_service", false, false)] ∧
    ¬ claimC8 (run [.join sampleReq 0, .start 1 1] oneBarberState) := by
  refine ⟨by decide, ?_⟩
  unfold claimC8
  decide

/-- `tsOK` is preserved by every operation, entrywise. -/
theorem timesInv_step (s : QueueState) (op : QueueOp) (h : timesInv s) :
    timesInv (step s op) := by
  have hmap : ∀ (l : List WalkInQueue) (f : WalkInQueue → WalkInQueue),
      (∀ e ∈ l, tsOK e) → (∀ e ∈ l, tsOK e → tsOK (f e)) → ∀ e' ∈ l.map f, tsOK e' := by
    intro l f hl hf e' he'
    obtain ⟨e, he, rfl⟩ := List.mem_map.mp he'
    exact hf e he (hl e he)
  cases op with
  | join req now =>
      intro e' he'
      rcases List.mem_append.mp he' with h1 | h1
      · exact h e' h1
      · rw [List.mem_singleton.mp h1]
        exact ⟨by simp, by simp, by simp, by simp⟩
  | call entry_id now =>
      cases hfe : findEntry s entry_id with
      | none => simpa [step, call_customer, hfe, Except.toOption] using h
      | some e0 =>
          have hst : step s (.call entry_id now) = { s with entries := s.entries.map fun e =>
              if e.id = entry_id then { e with status := "called", called_time := some now }
              else e } := by
            simp [step, call_customer, hfe, Except.toOption]
          rw [hst]
          refine hmap _ _ h fun e _ he => ?_
          by_cases hid : e.id = entry_id
          · simp [hid, tsOK]
          · simpa [hid] using he
  | start entry_id barber_id =>
      cases hfe : findEntry s entry_id with
      | none => simpa [step, start_service, hfe, Except.toOption] using h
      | some e0 =>
          cases hfb : findBarber s barber_id with
          | none => simpa [step, start_service, hfe, hfb, Except.toOption] using h
          | some b0 =>
              have hst : step s (.start entry_id barber_id) = { s with entries := s.entries.map fun e =>
                  if e.id = entry_id then { e with status := "in_service" } else e } := by
                simp [step, start_service, hfe, hfb, Except.toOption]
              rw [hst]
              refine hmap _ _ h fun e _ he => ?_
              by_cases hid : e.id = entry_id
              · simp [hid, tsOK]
              · simpa [hid] using he
  | complete entry_id now =>
      cases hfe : findEntry s entry_id with
      | none => simpa [step, complete_queue_entry, hfe, Except.toOption] using h
      | some e0 =>
          have hst : step s (.complete entry_id now) = { s with entries := s.entries.map fun e =>
              if e.id = entry_id then { e with status := "completed", completed_time := some now }
              else e } := by
            simp [step, complete_queue_entry, hfe, Except.toOption]
          rw [hst]
          refine hmap _ _ h fun e _ he => ?_
          by_cases hid : e.id = entry_id
          · simp [hid, tsOK]
          · simpa [hid] using he
  | remove entry_id =>
      cases hfe : findEntry s entry_id with
      | none => simpa [step, remove_from_queue, hfe, Except.toOption] using h
      | some e0 =>
          have hst : step s (.remove entry_id) = { s with entries :=
              (s.entries.map fun e =>
                if e.id = entry_id then { e with status := "left" } else e).map fun e =>
                if e.status = "waiting" && e0.position < e.position then
                  { e with position := e.position - 1 }
                else e } := by
            simp [step, remove_from_queue, hfe, Except.toOption]
          rw [hst]
          refine hmap _ _ (hmap _ _ h fun e _ he => ?_) fun e _ he => ?_
          · by_cases hid : e.id = entry_id
            · simp [hid, tsOK]
            · simpa [hid] using he
          · dsimp only
            split
            · simpa [tsOK] using he
            · exact he

/-- C8, amended: in every state reachable by any sequence of queue
operations from an empty store, an entry whose status is `called` has
`called_time` set, an entry whose status is `completed` has
`completed_time` set, and an entry with either timestamp set is no longer
`waiting`; the two claimed iffs themselves fail (see the counterexample). -/
theorem timestamp_flags_invariant (ops : List QueueOp) (barbers : List Barber) (nid : Nat) :
    timesInv (run ops { entries := [], barbers := barbers, next_id := nid }) := by
  have hrun : ∀ (l : List QueueOp) (s : QueueState), timesInv s → timesInv (run l s) := by
    intro l
    induction l with
    | nil => exact fun s h => h
    | cons op rest ih => exact fun s h => ih (step s op) (timesInv_step s op h)
  exact hrun ops _ (fun e he => absurd he (List.not_mem_nil e))

/-- Witness for C8's amended invariant on a concrete trace (join, call,
start, complete, remove). -/
theorem timestamp_flags_invariant_witness :
    timesInv (run [.join sampleReq 0, .call 1 2, .start 1 1, .complete 1 9, .remove 1]
      oneBarberState) := by
  have h := timestamp_flags_invariant
    [.join sampleReq 0, .call 1 2, .start 1 1, .complete 1 9, .remove 1] [⟨1, "Bob", true⟩] 1
  exact h

/-! ### C2: the contiguous-position invariant under join/remove

The claim quantifies over *every* sequence of join and remove operations.
It fails: `remove` has no status guard, so removing the same id twice
renumbers twice (see C10), leaving duplicate positions.  Restricted to
sequences in which each removal targets an entry that is still `waiting`
— the only removals the claimed state machine ever performs — the
invariant holds, and we prove it by induction over the trace. -/

/-- The first loop body of `remove_from_queue` (mark the matching row
`left`), named for use in proofs. -/
def markLeft (entry_id : Nat) (e : WalkInQueue) : WalkInQueue :=
  if e.id = entry_id then { e with status := "left" } else e

/-- The second loop body of `remove_from_queue` (decrement the position of
a waiting row beyond the removed position), named for use in proofs. -/
def shiftDown (p : Nat) (e : WalkInQueue) : WalkInQueue :=
  if e.status = "waiting" && p < e.position then
    { e with position := e.position - 1 }
  else e

/-- The operation is a join, or a removal whose target (if present) is
still `waiting`. -/
def isJoinOrWaitingRemove (s : QueueState) (op : QueueOp) : Bool :=
  match op with
  | .join _ _ => true
  | .remove entry_id => s.entries.all fun e => !(e.id = entry_id) || (e.status = "waiting")
  | _ => false

/-- Every operation along the trace is a join or the removal of a
still-waiting entry, each checked against the state it executes in. -/
def validJoinRemove : QueueState → List QueueOp → Bool
  | _, [] => true
  | s, op :: rest => isJoinOrWaitingRemove s op && validJoinRemove (step s op) rest

/-- The ledger invariant: row ids are below the autoincrement counter and
duplicate-free, every row is `waiting` or `left`, and the active positions
in store order are exactly `1, 2, ..., N`. -/
def LedgerInv (s : QueueState) : Prop :=
  (∀ e ∈ s.entries, e.id < s.next_id) ∧
  (s.entries.map (·.id)).Nodup ∧
  (∀ e ∈ s.entries, e.status = "waiting" ∨ e.status = "left") ∧
  activePosList s = List.range' 1 (activeCount s)

/-- C2, counterexample: after three joins, removing entry 1 twice (a
sequence of join and remove operations from the empty store) leaves two
active entries both at position 1 — the position multiset is {1, 1}, not
{1, 2}. -/
theorem position_invariant_cex :
    activePosList (run [.join sampleReq 0, .join sampleReq2 0, .join sampleReq3 0,
        .remove 1, .remove 1] emptyState) = [1, 1] ∧
    activeCount (run [.join sampleReq 0, .join sampleReq2 0, .join sampleReq3 0,
        .remove 1, .remove 1] emptyState) = 2 ∧
    ¬ (activePosList (run [.join sampleReq 0, .join sampleReq2 0, .join sampleReq3 0,
        .remove 1, .remove 1] emptyState)).Perm (List.range' 1 2) := by
  refine ⟨by decide, by decide, by decide⟩

/-- The SQL `max` fold over the position list `a, a+1, ..., a+n-1`. -/
theorem foldr_max_range' : ∀ (n a : Nat), 0 < a →
    List.foldr max 0 (List.range' a n) = if n = 0 then 0 else a + n - 1 := by
  intro n
  induction n with
  | zero => intro a _; simp
  | succ n ih =>
      intro a ha
      rw [List.range'_succ]
      simp only [List.foldr_cons]
      rw [ih (a + 1) (by omega)]
      by_cases hn : n = 0
      · subst hn
        simp
      · rw [if_neg hn, if_neg (Nat.succ_ne_zero n)]
        rw [show a + 1 + n - 1 = a + n by omega]
        rw [Nat.max_eq_right (by omega)]
        omega

/-- Under the position invariant, the queried maximum active position is
the number of active entries. -/
theorem maxActivePos_of_inv (s : QueueState)
    (h : activePosList s = List.range' 1 (activeCount s)) :
    maxActivePos s = activeCount s := by
  have hm : maxActivePos s = List.foldr max 0 (activePosList s) := rfl
  rw [hm, h, foldr_max_range' (activeCount s) 1 (by omega)]
  split_ifs with hn <;> omega

/-- Deleting `p` from `1, ..., N` and shifting the entries beyond it down
by one yields `1, ..., N-1`. -/
theorem filter_map_dec_range' (N p : Nat) (h1 : 1 ≤ p) (h2 : p ≤ N) :
    ((List.range' 1 N).filter (fun q => !(q = p))).map
      (fun q => if p < q then q - 1 else q) = List.range' 1 (N - 1) := by
  have hsplit : List.range' 1 N = List.range' 1 (p - 1) ++ p :: List.range' (p + 1) (N - p) := by
    calc List.range' 1 N
        = List.range' 1 (((N - p) + 1) + (p - 1)) := by rw [show ((N - p) + 1) + (p - 1) = N by omega]
      _ = List.range' 1 (p - 1) ++ List.range' (1 + (p - 1)) ((N - p) + 1) :=
          (List.range'_append_1 1 (p - 1) ((N - p) + 1)).symm
      _ = List.range' 1 (p - 1) ++ List.range' p ((N - p) + 1) := by rw [show 1 + (p - 1) = p by omega]
      _ = List.range' 1 (p - 1) ++ (p :: List.range' (p + 1) (N - p)) := by rw [List.range'_succ]
  rw [hsplit, List.filter_append, List.filter_cons]
  have hfa : (List.range' 1 (p - 1)).filter (fun q => !(q = p)) = List.range' 1 (p - 1) :=
    List.filter_eq_self.mpr fun a ha => by
      have := List.mem_range'_1.mp ha
      simp only [Bool.not_eq_true']
      simp only [decide_eq_false_iff_not]
      omega
  have hfb : (List.range' (p + 1) (N - p)).filter (fun q => !(q = p)) =
      List.range' (p + 1) (N - p) :=
    List.filter_eq_self.mpr fun a ha => by
      have := List.mem_range'_1.mp ha
      simp only [Bool.not_eq_true']
      simp only [decide_eq_false_iff_not]
      omega
  rw [hfa, hfb]
  rw [if_neg (by simp)]
  rw [List.map_append]
  have hma : (List.range' 1 (p - 1)).map (fun q => if p < q then q - 1 else q) =
      List.range' 1 (p - 1) := by
    have := List.map_congr_left (l := List.range' 1 (p - 1))
      (f := fun q => if p < q then q - 1 else q) (g := id) fun a ha => by
        have := List.mem_range'_1.mp ha
        show (if p < a then a - 1 else a) = a
        rw [if_neg (by omega)]
    rw [this, List.map_id]
  have hmb : (List.range' (p + 1) (N - p)).map (fun q => if p < q then q - 1 else q) =
      List.range' p (N - p) := by
    have hc := List.map_congr_left (l := List.range' (p + 1) (N - p))
      (f := fun q => if p < q then q - 1 else q) (g := fun q => q - 1) fun a ha => by
        have := List.mem_range'_1.mp ha
        show (if p < a then a - 1 else a) = a - 1
        rw [if_pos (by omega)]
    rw [hc]
    have hms : (List.range' (p + 1) (N - p)).map (· - 1) = List.range' (p + 1 - 1) (N - p) :=
      List.map_sub_range' 1 (p + 1) (N - p) (by omega)
    simpa using hms
  rw [hma, hmb]
  calc List.range' 1 (p - 1) ++ List.range' p (N - p)
      = List.range' 1 (p - 1) ++ List.range' (1 + (p - 1)) (N - p) := by
        rw [show 1 + (p - 1) = p by omega]
    _ = List.range' 1 ((N - p) + (p - 1)) := List.range'_append_1 1 (p - 1) (N - p)
    _ = List.range' 1 (N - 1) := by rw [show (N - p) + (p - 1) = N - 1 by omega]

theorem markLeft_id (entry_id : Nat) (e : WalkInQueue) :
    (markLeft entry_id e).id = e.id := by
  unfold markLeft; split <;> rfl

theorem markLeft_position (entry_id : Nat) (e : WalkInQueue) :
    (markLeft entry_id e).position = e.position := by
  unfold markLeft; split <;> rfl

theorem shiftDown_id (p : Nat) (e : WalkInQueue) :
    (shiftDown p e).id = e.id := by
  unfold shiftDown; split <;> rfl

theorem shiftDown_status (p : Nat) (e : WalkInQueue) :
    (shiftDown p e).status = e.status := by
  unfold shiftDown; split <;> rfl

theorem isActive_shiftDown (p : Nat) (e : WalkInQueue) :
    isActive (shiftDown p e) = isActive e := by
  unfold isActive
  rw [shiftDown_status]

theorem isActive_markLeft (entry_id : Nat) (e : WalkInQueue) :
    isActive (markLeft entry_id e) = (isActive e && !(e.id = entry_id)) := by
  unfold markLeft
  by_cases h : e.id = entry_id
  · simp [h, isActive]
  · simp [h]

/-- `step` of a removal on a found entry, in terms of the two loop bodies. -/
theorem step_remove_entries (entry_id : Nat) (s : QueueState) (entry : WalkInQueue)
    (hfe : findEntry s entry_id = some entry) :
    (step s (.remove entry_id)).entries =
      (s.entries.map (markLeft entry_id)).map (shiftDown entry.position) := by
  simp only [step, remove_from_queue, hfe, Except.toOption, Option.getD_some]
  rfl

/-- `LedgerInv` is preserved by a join. -/
theorem ledgerInv_join (req : QueueEntryCreate) (now : Nat) (s : QueueState)
    (h : LedgerInv s) : LedgerInv (step s (.join req now)) := by
  obtain ⟨h1, h2, h3, h4⟩ := h
  have hent : (step s (.join req now)).entries = s.entries ++
      [{ id := s.next_id, customer_name := req.customer_name,
         customer_phone := req.customer_phone, customer_id := req.customer_id,
         requested_barber_id := req.requested_barber_id, service_notes := req.service_notes,
         position := maxActivePos s + 1, status := "waiting",
         estimated_wait := some (waitingCount s * 25), check_in_time := now,
         called_time := none, completed_time := none }] := rfl
  have hnid : (step s (.join req now)).next_id = s.next_id + 1 := rfl
  refine ⟨?_, ?_, ?_, ?_⟩
  · rw [hent, hnid]
    intro e he
    rcases List.mem_append.mp he with he | he
    · exact Nat.lt_succ_of_lt (h1 e he)
    · rw [List.mem_singleton.mp he]
      exact Nat.lt_succ_self _
  · rw [hent, List.map_append]
    refine List.Nodup.append h2 (List.nodup_singleton _) fun a ha hb => ?_
    simp only [List.map_cons, List.map_nil, List.mem_singleton] at hb
    obtain ⟨e, he, hid⟩ := List.mem_map.mp ha
    exact absurd (hid.trans hb) (Nat.ne_of_lt (h1 e he))
  · rw [hent]
    intro e he
    rcases List.mem_append.mp he with he | he
    · exact h3 e he
    · rw [List.mem_singleton.mp he]
      exact Or.inl rfl
  · have hmax := maxActivePos_of_inv s h4
    have hposs : activePosList (step s (.join req now)) =
        activePosList s ++ [maxActivePos s + 1] := by
      unfold activePosList
      rw [hent, List.filter_append, List.map_append]
      congr 1
    have hcnt : activeCount (step s (.join req now)) = activeCount s + 1 := by
      unfold activeCount
      rw [hent, List.filter_append, List.length_append]
      congr 1
    rw [hposs, hcnt, h4, hmax, List.range'_1_concat]
    rw [Nat.add_comm 1 (activeCount s)]

/-- `LedgerInv` is preserved by removing a still-waiting entry. -/
theorem ledgerInv_remove (entry_id : Nat) (s : QueueState) (h : LedgerInv s)
    (hval : (s.entries.all fun e => !(e.id = entry_id) || (e.status = "waiting")) = true) :
    LedgerInv (step s (.remove entry_id)) := by
  obtain ⟨h1, h2, h3, h4⟩ := h
  cases hfe : findEntry s entry_id with
  | none =>
      have hs : step s (.remove entry_id) = s := by
        simp [step, remove_from_queue, hfe, Except.toOption]
      rw [hs]
      exact ⟨h1, h2, h3, h4⟩
  | some entry =>
      have hmem : entry ∈ s.entries := List.mem_of_find?_eq_some hfe
      have hid : entry.id = entry_id := by
        have := List.find?_some hfe
        simpa using this
      have hwait : entry.status = "waiting" := by
        have hv := List.all_eq_true.mp hval entry hmem
        simp [hid] at hv
        exact hv
      have hactive : isActive entry = true := by simp [isActive, hwait]
      have hent := step_remove_entries entry_id s entry hfe
      have hnid : (step s (.remove entry_id)).next_id = s.next_id := by
        simp [step, remove_from_queue, hfe, Except.toOption]
      have hentryA : entry ∈ s.entries.filter isActive :=
        List.mem_filter.mpr ⟨hmem, hactive⟩
      have hpN : 1 ≤ entry.position ∧ entry.position < 1 + activeCount s := by
        have hpm : entry.position ∈ List.range' 1 (activeCount s) := by
          rw [← h4]
          exact List.mem_map.mpr ⟨entry, hentryA, rfl⟩
        exact List.mem_range'_1.mp hpm
      have hposnodup : ((s.entries.filter isActive).map (·.position)).Nodup := by
        rw [show (s.entries.filter isActive).map (·.position) =
          List.range' 1 (activeCount s) from h4]
        exact List.nodup_range' 1 (activeCount s)
      have hdir : ∀ x ∈ s.entries.filter isActive,
          (x.id = entry_id ↔ x.position = entry.position) := by
        intro x hx
        constructor
        · intro hxe
          have hx' : x ∈ s.entries := (List.mem_filter.mp hx).1
          have hxeq : x = entry := List.inj_on_of_nodup_map h2 hx' hmem (by rw [hxe, hid])
          rw [hxeq]
        · intro hxp
          have hxeq : x = entry := List.inj_on_of_nodup_map hposnodup hx hentryA hxp
          rw [hxeq, hid]
      refine ⟨?_, ?_, ?_, ?_⟩
      · rw [hnid]
        intro e' he'
        rw [hent] at he'
        obtain ⟨e1, he1, rfl⟩ := List.mem_map.mp he'
        obtain ⟨e, he, rfl⟩ := List.mem_map.mp he1
        rw [shiftDown_id, markLeft_id]
        exact h1 e he
      · rw [hent, List.map_map, List.map_map]
        have heq : s.entries.map (((·.id) ∘ shiftDown entry.position) ∘ markLeft entry_id) =
            s.entries.map (·.id) :=
          List.map_congr_left fun e _ => by
            show (shiftDown entry.position (markLeft entry_id e)).id = e.id
            rw [shiftDown_id, markLeft_id]
        rw [heq]
        exact h2
      · intro e' he'
        rw [hent] at he'
        obtain ⟨e1, he1, rfl⟩ := List.mem_map.mp he'
        obtain ⟨e, he, rfl⟩ := List.mem_map.mp he1
        rw [show (shiftDown entry.position (markLeft entry_id e)).status =
          (markLeft entry_id e).status from shiftDown_status _ _]
        unfold markLeft
        split
        · exact Or.inr rfl
        · exact h3 e he
      · -- the positions component
        have hsplit2 : s.entries.filter (fun e => isActive e && !(e.id = entry_id)) =
            (s.entries.filter isActive).filter (fun e => !(e.position = entry.position)) := by
          rw [List.filter_filter]
          refine List.filter_congr fun x hx => ?_
          cases hact : isActive x with
          | false => simp [hact]
          | true =>
              have hiff := hdir x (List.mem_filter.mpr ⟨hx, hact⟩)
              by_cases hxe : x.id = entry_id
              · have hxp := hiff.mp hxe
                simp [hact, hxe, hxp]
              · have hxp : ¬ (x.position = entry.position) := fun hc => hxe (hiff.mpr hc)
                simp [hact, hxe, hxp]
        have hpoint : ∀ x ∈ (s.entries.filter isActive).filter
            (fun e => !(e.position = entry.position)),
            (shiftDown entry.position (markLeft entry_id x)).position =
              (if entry.position < x.position then x.position - 1 else x.position) := by
          intro x hx
          have hxA : x ∈ s.entries.filter isActive := (List.mem_filter.mp hx).1
          have hxp : ¬ (x.position = entry.position) := by
            simpa using (List.mem_filter.mp hx).2
          have hxid : ¬ (x.id = entry_id) := fun hc => hxp ((hdir x hxA).mp hc)
          have hxl : x ∈ s.entries := (List.mem_filter.mp hxA).1
          have hxact : isActive x = true := (List.mem_filter.mp hxA).2
          have hxw : x.status = "waiting" := by
            rcases h3 x hxl with hw | hl
            · exact hw
            · exfalso
              simp [isActive, hl] at hxact
          by_cases hlt : entry.position < x.position
          · simp [markLeft, shiftDown, hxid, hxw, hlt]
          · simp [markLeft, shiftDown, hxid, hxw, hlt]
        have hmain : activePosList (step s (.remove entry_id)) =
            ((List.range' 1 (activeCount s)).filter (fun q => !(q = entry.position))).map
              (fun q => if entry.position < q then q - 1 else q) := by
          show ((step s (.remove entry_id)).entries.filter isActive).map (·.position) = _
          rw [hent]
          rw [List.filter_map]
          rw [show (isActive ∘ shiftDown entry.position) = isActive from
            funext fun e => isActive_shiftDown entry.position e]
          rw [List.filter_map]
          rw [show (isActive ∘ markLeft entry_id) =
            (fun e => isActive e && !(e.id = entry_id)) from
            funext fun e => isActive_markLeft entry_id e]
          rw [hsplit2]
          rw [List.map_map, List.map_map]
          rw [show ((s.entries.filter isActive).filter
              (fun e => !(e.position = entry.position))).map
                (((·.position) ∘ shiftDown entry.position) ∘ markLeft entry_id) =
              ((s.entries.filter isActive).filter
                (fun e => !(e.position = entry.position))).map
                (fun x => if entry.position < x.position then x.position - 1 else x.position) from
            List.map_congr_left fun x hx => hpoint x hx]
          rw [show ((s.entries.filter isActive).filter
              (fun e => !(e.position = entry.position))).map
                (fun x => if entry.position < x.position then x.position - 1 else x.position) =
              ((((s.entries.filter isActive).map (·.position)).filter
                (fun q => !(q = entry.position))).map
                  (fun q => if entry.position < q then q - 1 else q)) from by
            rw [List.filter_map, List.map_map]
            rfl]
          rw [show (s.entries.filter isActive).map (·.position) =
            List.range' 1 (activeCount s) from h4]
        have hfin := filter_map_dec_range' (activeCount s) entry.position hpN.1 (by omega)
        have hcount : activeCount (step s (.remove entry_id)) = activeCount s - 1 := by
          have hlen1 : activeCount (step s (.remove entry_id)) =
              (activePosList (step s (.remove entry_id))).length :=
            (List.length_map _ _).symm
          rw [hlen1, hmain, hfin, List.length_range']
        rw [hcount, hmain]
        exact hfin

/-- `LedgerInv` is preserved along any valid join/remove trace. -/
theorem ledgerInv_run : ∀ (ops : List QueueOp) (s : QueueState),
    LedgerInv s → validJoinRemove s ops = true → LedgerInv (run ops s) := by
  intro ops
  induction ops with
  | nil => exact fun s h _ => h
  | cons op rest ih =>
      intro s h hv
      have hv' : isJoinOrWaitingRemove s op = true ∧
          validJoinRemove (step s op) rest = true := by
        simpa [validJoinRemove] using hv
      obtain ⟨hop, hrest⟩ := hv'
      have hstep : LedgerInv (step s op) := by
        cases op with
        | join req now => exact ledgerInv_join req now s h
        | remove entry_id =>
            exact ledgerInv_remove entry_id s h (by simpa [isJoinOrWaitingRemove] using hop)
        | call entry_id now => simp [isJoinOrWaitingRemove] at hop
        | start entry_id barber_id => simp [isJoinOrWaitingRemove] at hop
        | complete entry_id now => simp [isJoinOrWaitingRemove] at hop
      exact ih (step s op) hstep hrest

/-- C2, amended: starting from an empty store, along any sequence of joins
and removals in which each removal targets an entry still in `waiting`
status, the active (waiting/called) entries' positions in store order are
exactly the list `1, 2, ..., N` — no gaps, no duplicates.  Unrestricted
remove sequences violate the claim (see the counterexample: removing the
same id twice renumbers twice). -/
theorem position_invariant (ops : List QueueOp) (barbers : List Barber) (nid : Nat)
    (h : validJoinRemove { entries := [], barbers := barbers, next_id := nid } ops = true) :
    activePosList (run ops { entries := [], barbers := barbers, next_id := nid }) =
      List.range' 1
        (activeCount (run ops { entries := [], barbers := barbers, next_id := nid })) :=
  (ledgerInv_run ops { entries := [], barbers := barbers, next_id := nid }
    ⟨fun e he => absurd he (List.not_mem_nil e),
     List.nodup_nil,
     fun e he => absurd he (List.not_mem_nil e),
     rfl⟩ h).2.2.2

/-- Witness for C2's amended invariant on a concrete valid trace (three
joins, removal of the still-waiting entry 1, one further join). -/
theorem position_invariant_witness :
    activePosList (run [.join sampleReq 0, .join sampleReq2 0, .join sampleReq3 0,
        .remove 1, .join sampleReq4 0] { entries := [], barbers := [], next_id := 1 }) =
      List.range' 1 (activeCount (run [.join sampleReq 0, .join sampleReq2 0,
        .join sampleReq3 0, .remove 1, .join sampleReq4 0]
        { entries := [], barbers := [], next_id := 1 })) :=
  position_invariant [.join sampleReq 0, .join sampleReq2 0, .join sampleReq3 0,
    .remove 1, .join sampleReq4 0] [] 1 (by decide)

end BarberQueue
